import Mathlib

/-!
Verification development for `create_pax.py`, a script that walks a directory
tree breadth-first, writes every symlink/directory/file into a PAX archive,
and writes one catalog line per archived entry (plus one header line per
directory).  The definitions below are a shallow embedding of the script:
the filesystem is a tree value, the traversal is a queue-driven recursion
producing the list of observable output events (catalog header lines,
catalog data lines, archive members, skip notices), and the per-file
hashing loop is modelled byte-for-byte including a full SHA-1
implementation.
-/

namespace CreatePax

/-! ## SHA-1 (hashlib.sha1)

The script hashes each regular file by feeding successive 4096-byte blocks
to `hashlib.sha1().update` and taking `hexdigest()` at the end.  We embed
SHA-1 (FIPS 180-4) over byte lists, and model the incremental hash object
by the list of bytes fed so far (hashlib's incremental interface computes
the digest of the concatenation of all `update` arguments). -/

/-- Words are 32-bit: reduce modulo 2^32. -/
def w32 (n : Nat) : Nat := n % 4294967296

/-- Left-rotation of a 32-bit word by `s` bits. -/
def rotl32 (s n : Nat) : Nat := w32 ((n <<< s) ||| (n >>> (32 - s)))

/-- Round function f_t of SHA-1. -/
def sha1F (t b c d : Nat) : Nat :=
  if t < 20 then (b &&& c) ||| ((b ^^^ 4294967295) &&& d)
  else if t < 40 then (b ^^^ c) ^^^ d
  else if t < 60 then ((b &&& c) ||| (b &&& d)) ||| (c &&& d)
  else (b ^^^ c) ^^^ d

/-- Round constant K_t of SHA-1. -/
def sha1K (t : Nat) : Nat :=
  if t < 20 then 0x5A827999
  else if t < 40 then 0x6ED9EBA1
  else if t < 60 then 0x8F1BBCDC
  else 0xCA62C1D6

/-- Big-endian 32-bit word from four bytes. -/
def wordOfBytes (b0 b1 b2 b3 : Nat) : Nat :=
  (((b0 % 256) <<< 24) ||| ((b1 % 256) <<< 16)) ||| (((b2 % 256) <<< 8) ||| (b3 % 256))

/-- Convert a 64-byte block into its 16 big-endian message words. -/
def blockWords : List Nat → List Nat
  | b0 :: b1 :: b2 :: b3 :: rest => wordOfBytes b0 b1 b2 b3 :: blockWords rest
  | _ => []

/-- Extend the 16 message words of a block to the 80 words of the message
schedule. -/
def extendWords (ws : List Nat) : List Nat :=
  (List.range 64).foldl
    (fun arr j =>
      arr ++ [rotl32 1 ((((arr.getD (j + 13) 0) ^^^ (arr.getD (j + 8) 0)) ^^^
        (arr.getD (j + 2) 0)) ^^^ (arr.getD j 0))])
    ws

/-- One SHA-1 round on the five-word working state. -/
def sha1Round (ws : List Nat) (st : Nat × Nat × Nat × Nat × Nat) (t : Nat) :
    Nat × Nat × Nat × Nat × Nat :=
  let (a, b, c, d, e) := st
  (w32 (rotl32 5 a + sha1F t b c d + e + sha1K t + ws.getD t 0), a, rotl32 30 b, c, d)

/-- Compression function: absorb one 64-byte block into the chaining value. -/
def sha1Compress (h : Nat × Nat × Nat × Nat × Nat) (block : List Nat) :
    Nat × Nat × Nat × Nat × Nat :=
  let ws := extendWords (blockWords block)
  let fin := (List.range 80).foldl (sha1Round ws) h
  (w32 (h.1 + fin.1), w32 (h.2.1 + fin.2.1), w32 (h.2.2.1 + fin.2.2.1),
   w32 (h.2.2.2.1 + fin.2.2.2.1), w32 (h.2.2.2.2 + fin.2.2.2.2))

/-- Big-endian 8-byte encoding of a length value. -/
def beBytes8 (n : Nat) : List Nat :=
  [(n >>> 56) % 256, (n >>> 48) % 256, (n >>> 40) % 256, (n >>> 32) % 256,
   (n >>> 24) % 256, (n >>> 16) % 256, (n >>> 8) % 256, n % 256]

/-- SHA-1 message padding: append 0x80, zero bytes to reach 56 mod 64, then
the bit length as 8 big-endian bytes. -/
def sha1Pad (msg : List Nat) : List Nat :=
  msg ++ (128 :: List.replicate ((119 - msg.length % 64) % 64) 0) ++ beBytes8 (msg.length * 8)

/-- Split a byte list into successive blocks of `n` bytes (the last one may
be shorter); fuel-based so that it is structurally recursive. -/
def chunksOfAux (n : Nat) : Nat → List Nat → List (List Nat)
  | _, [] => []
  | 0, _ :: _ => []
  | fuel + 1, b :: l => (b :: l).take n :: chunksOfAux n fuel ((b :: l).drop n)

/-- Split a byte list into successive `n`-byte blocks. -/
def chunksOf (n : Nat) (l : List Nat) : List (List Nat) := chunksOfAux n l.length l

/-- Lowercase hexadecimal digit. -/
def hexChar (n : Nat) : Char :=
  if n < 10 then Char.ofNat (48 + n) else Char.ofNat (87 + n)

/-- Eight lowercase hex characters of a 32-bit word, most significant first. -/
def hexWord (w : Nat) : List Char :=
  (List.range 8).map (fun i => hexChar ((w >>> ((7 - i) * 4)) % 16))

/-- SHA-1 digest of a byte list, as the 40-character lowercase hex string
returned by `hashlib.sha1(...).hexdigest()`. -/
def sha1Hex (msg : List Nat) : String :=
  let fin := (chunksOf 64 (sha1Pad msg)).foldl sha1Compress
    (0x67452301, 0xEFCDAB89, 0x98BADCFE, 0x10325476, 0xC3D2E1F0)
  String.mk (hexWord fin.1 ++ hexWord fin.2.1 ++ hexWord fin.2.2.1 ++
    hexWord fin.2.2.2.1 ++ hexWord fin.2.2.2.2)

/-- Incremental hash object state (`hashlib.sha1()` object): the bytes fed so
far via `update`. -/
def sha1_update (st : List Nat) (block : List Nat) : List Nat := st ++ block

/-- Finalize the incremental hash object (`hexdigest()`). -/
def sha1_hexdigest (st : List Nat) : String := sha1Hex st

/-- Digest produced by the script's read loop (lines 246-251): read 4096-byte
blocks until empty, feeding each to `hash_obj.update`, then `hexdigest()`. -/
def fileDigest (content : List Nat) : String :=
  sha1_hexdigest ((chunksOf 4096 content).foldl sha1_update [])

/-! ## Filesystem model

A directory tree as seen by `pathlib`: each entry has a name, the stat
metadata the script reads (permission bits, uid, gid, mtime), and its
kind-specific payload.  `other` covers device files, sockets, FIFOs, etc.;
its `typeBits` are the `S_IFMT` bits its `lstat` would report.  A symlink
records whether its *target* resolves to a directory / regular file, since
`pathlib.Path.is_dir` / `is_file` follow symlinks. -/

/-- Stat metadata shared by every entry: permission bits (low 12 bits of
`st_mode`), owner uid/gid, and modification time. -/
structure StatMeta where
  perm : Nat
  uid : Nat
  gid : Nat
  mtime : Nat
deriving DecidableEq, Repr

/-- One filesystem entry. -/
inductive FSEntry where
  | file (name : String) (meta : StatMeta) (content : List Nat)
  | dir (name : String) (meta : StatMeta) (children : List FSEntry)
  | symlink (name : String) (meta : StatMeta) (target : String)
      (targetIsDir : Bool) (targetIsFile : Bool)
  | other (name : String) (meta : StatMeta) (typeBits : Nat)
deriving Repr

/-- Entry name (`entry.name` / `item.name`). -/
def FSEntry.name : FSEntry → String
  | .file n _ _ => n
  | .dir n _ _ => n
  | .symlink n _ _ _ _ => n
  | .other n _ _ => n

/-- Stat metadata of an entry. -/
def FSEntry.meta : FSEntry → StatMeta
  | .file _ m _ => m
  | .dir _ m _ => m
  | .symlink _ m _ _ _ => m
  | .other _ m _ => m

/-- Model of `pathlib.Path.is_symlink()`. -/
def FSEntry.is_symlink : FSEntry → Bool
  | .symlink _ _ _ _ _ => true
  | _ => false

/-- Model of `pathlib.Path.is_dir()`: follows symlinks, so a symlink whose
target is a directory answers `true`. -/
def FSEntry.is_dir : FSEntry → Bool
  | .dir _ _ _ => true
  | .symlink _ _ _ tIsDir _ => tIsDir
  | _ => false

/-- Model of `pathlib.Path.is_file()`: follows symlinks, so a symlink whose
target is a regular file answers `true`. -/
def FSEntry.is_file : FSEntry → Bool
  | .file _ _ _ => true
  | .symlink _ _ _ _ tIsFile => tIsFile
  | _ => false

/-- Children of a directory entry ( `iterdir()` listing order). -/
def FSEntry.childrenList : FSEntry → List FSEntry
  | .dir _ _ cs => cs
  | _ => []

/-- Byte content of a regular-file entry. -/
def FSEntry.contentBytes : FSEntry → List Nat
  | .file _ _ c => c
  | _ => []

/-- Link target of a symlink entry (`os.readlink`). -/
def FSEntry.linkTarget : FSEntry → String
  | .symlink _ _ t _ _ => t
  | _ => ""

/-! ## lstat and the catalog writer (`write_catalog`, lines 136-165) -/

/-- Result of `os.stat(..., follow_symlinks=False)` on an entry. -/
structure LStatResult where
  st_mode : Nat
  st_size : Nat
  st_mtime : Nat
  st_uid : Nat
  st_gid : Nat
deriving DecidableEq, Repr

/-- Model of `stat.S_ISDIR`: the `S_IFMT` bits equal `S_IFDIR`. -/
def S_ISDIR (mode : Nat) : Bool := (mode &&& 0o170000) == 0o040000

/-- Model of `stat.S_ISLNK`. -/
def S_ISLNK (mode : Nat) : Bool := (mode &&& 0o170000) == 0o120000

/-- lstat of an entry: type bits from the entry kind, permission bits from
the metadata (the low 12 bits of a real `st_mode`), sizes as on a POSIX
filesystem (a symlink's `st_size` is the byte length of its target path; a
directory reports its block size, which the script never reads because
`S_ISDIR` holds for it). -/
def FSEntry.lstat : FSEntry → LStatResult
  | .file _ m c => ⟨0o100000 ||| m.perm % 4096, c.length, m.mtime, m.uid, m.gid⟩
  | .dir _ m _ => ⟨0o040000 ||| m.perm % 4096, 4096, m.mtime, m.uid, m.gid⟩
  | .symlink _ m t _ _ =>
      ⟨0o120000 ||| m.perm % 4096, t.utf8ByteSize, m.mtime, m.uid, m.gid⟩
  | .other _ m tb => ⟨tb ||| m.perm % 4096, 0, m.mtime, m.uid, m.gid⟩

/-- Character for one permission-bit position of `stat.filemode`. -/
def permBitChar (mode bit : Nat) (c : Char) : Char :=
  if mode &&& bit = bit then c else '-'

/-- Execute-position character of `stat.filemode`, honouring the
setuid/setgid/sticky special characters. -/
def execBitChar (mode xbit sbit : Nat) (sc bigSc : Char) : Char :=
  if mode &&& (xbit ||| sbit) = xbit ||| sbit then sc
  else if mode &&& sbit = sbit then bigSc
  else if mode &&& xbit = xbit then 'x'
  else '-'

/-- File-type character of `stat.filemode` (checked in CPython's table
order: link, socket, regular, block, directory, character, FIFO). -/
def filetypeChar (mode : Nat) : Char :=
  if mode &&& 0o120000 = 0o120000 then 'l'
  else if mode &&& 0o140000 = 0o140000 then 's'
  else if mode &&& 0o100000 = 0o100000 then '-'
  else if mode &&& 0o060000 = 0o060000 then 'b'
  else if mode &&& 0o040000 = 0o040000 then 'd'
  else if mode &&& 0o020000 = 0o020000 then 'c'
  else if mode &&& 0o010000 = 0o010000 then 'p'
  else '?'

/-- Model of `stat.filemode`: the 10-character `-rwxr-xr-x`-style string. -/
def filemode (mode : Nat) : String :=
  String.mk [filetypeChar mode,
    permBitChar mode 0o400 'r', permBitChar mode 0o200 'w',
    execBitChar mode 0o100 0o4000 's' 'S',
    permBitChar mode 0o40 'r', permBitChar mode 0o20 'w',
    execBitChar mode 0o10 0o2000 's' 'S',
    permBitChar mode 0o4 'r', permBitChar mode 0o2 'w',
    execBitChar mode 0o1 0o1000 't' 'T']

/-- One tab-separated catalog data line: permission string, checksum, size
field ( `"N/A"` or the decimal size), modification time (kept numeric: the
script formats it with `strftime`, which depends on the local timezone and
is irrelevant to every claim), and the entry's base name. -/
structure CatalogDataLine where
  perms : String
  checksum : String
  sizeField : String
  mtimeVal : Nat
  entryName : String
deriving DecidableEq, Repr

/-- All-zero placeholder digest used when no checksum is supplied. -/
def zeroDigest : String := "0000000000000000000000000000000000000000"

/-- Model of `write_catalog` (lines 136-165): substitute the all-zero
placeholder when `checksum is None`, lstat the item, print `N/A` as the
size exactly when `S_ISDIR` holds of the lstat mode, and otherwise the
decimal `st_size`. -/
def write_catalog (item : FSEntry) (checksum : Option String) : CatalogDataLine :=
  let cs := match checksum with
    | none => zeroDigest
    | some c => c
  let item_info := item.lstat
  let mode := item_info.st_mode
  let lastmod := item_info.st_mtime
  let size := if S_ISDIR mode then "N/A" else toString item_info.st_size
  ⟨filemode mode, cs, size, lastmod, item.name⟩

/-! ## Archive members (`write_to_archive`, lines 96-132, and `tar_obj.add`) -/

/-- Tar member type tag (`REGTYPE` / `DIRTYPE` / `SYMTYPE`). -/
inductive MemberType where
  | reg
  | dir
  | sym
deriving DecidableEq, Repr

/-- One member of the PAX archive: the `TarInfo` metadata plus, for regular
files, the byte payload drained from the supplied stream. -/
structure ArchiveMember where
  arcname : String
  mtype : MemberType
  mode : Nat
  uid : Nat
  gid : Nat
  mtime : Nat
  msize : Nat
  uname : Option String
  gname : Option String
  linkname : Option String
  payload : List Nat
deriving DecidableEq, Repr

/-- Ambient system facilities the script consults: the passwd and group
databases (`pwd.getpwuid` / `grp.getgrgid`, which raise `KeyError` — here
`Except.error ()` — for an unknown id) and the absolute path of the
archive root (`dir_path`). -/
structure SysEnv where
  pwdb : Nat → Except Unit String
  grpdb : Nat → Except Unit String
  rootPath : String

/-- Model of the `TarInfo` construction in `write_to_archive` (lines
106-126): a `REGTYPE` `TarInfo` from the file's stat, with uid/gid
resolved to names and `KeyError` recovered to `None` (lines 118-126), and
the payload that `addfile` would drain — exactly `st_size` bytes from the
stream. -/
def build_tar_info (env : SysEnv) (item_rel : String) (item_stat : LStatResult)
    (stream : List Nat) : ArchiveMember :=
  { arcname := item_rel
    mtype := MemberType.reg
    mode := item_stat.st_mode
    uid := item_stat.st_uid
    gid := item_stat.st_gid
    mtime := item_stat.st_mtime
    msize := item_stat.st_size
    uname := match env.pwdb item_stat.st_uid with
      | .ok n => some n
      | .error _ => none
    gname := match env.grpdb item_stat.st_gid with
      | .ok n => some n
      | .error _ => none
    linkname := none
    payload := stream.take item_stat.st_size }

/-- Python exception escaping `tar_obj.addfile` under `PAX_FORMAT`. -/
inductive TarWriteError where
  | attributeNoneEncode
deriving DecidableEq, Repr

/-- Model of `write_to_archive` (lines 96-132) including the
`tar_obj.addfile(tar_info, stream)` call (line 129) under `PAX_FORMAT`:
CPython's `TarInfo.create_pax_header` runs
`info["uname"].encode("ascii", "strict")` (and likewise for `gname`)
catching only `UnicodeEncodeError`, so when a name lookup failed and the
field was set to `None`, `addfile` raises `AttributeError` before writing
any bytes and no member is emitted; otherwise the member is appended with
the stream drained. -/
def write_to_archive (env : SysEnv) (item_rel : String) (item_stat : LStatResult)
    (stream : List Nat) : Except TarWriteError ArchiveMember :=
  let tar_info := build_tar_info env item_rel item_stat stream
  match tar_info.uname, tar_info.gname with
  | some _, some _ => Except.ok tar_info
  | _, _ => Except.error TarWriteError.attributeNoneEncode

/-- Model of `tar_obj.add(str(entry), arcname=..., recursive=False)` as used
for symlinks and directories (lines 192-196 and 204-208): `tarfile` lstats
the path (it does not dereference symlinks), stores a `SYMTYPE` member with
the link target for a symlink and a `DIRTYPE` member for a directory, with
size 0 and no payload, resolving names like `write_to_archive` does. -/
def tar_add (env : SysEnv) (arcname : String) (e : FSEntry) : ArchiveMember :=
  let st := e.lstat
  { arcname := arcname
    mtype := if e.is_symlink then MemberType.sym else MemberType.dir
    mode := st.st_mode
    uid := st.st_uid
    gid := st.st_gid
    mtime := st.st_mtime
    msize := 0
    uname := match env.pwdb st.st_uid with
      | .ok n => some n
      | .error _ => none
    gname := match env.grpdb st.st_gid with
      | .ok n => some n
      | .error _ => none
    linkname := if e.is_symlink then some e.linkTarget else none
    payload := [] }

/-! ## The traversal (lines 170-267)

The script keeps a FIFO `dirs_to_examine` list, pops the front, prints a
catalog header line for the popped directory, dispatches on each entry of
its listing (symlink / directory / file / other, in that order), and
appends discovered subdirectories to the back of the queue.  We record the
observable outputs as a single event trace; catalog data lines and archive
members are additionally tagged with the relative path (as a component
list) of the entry that produced them, which the textual outputs determine
only jointly. -/

/-- Bytes that flow through the pipe to the tar thread: every block read is
written to the conduit (and flushed) right after the hash update. -/
def conduitBytes (content : List Nat) : List Nat :=
  (chunksOf 4096 content).flatten

/-- Render a root-relative component list the way `str(entry.relative_to(dir_path))`
does. -/
def renderRel (rel : List String) : String := String.intercalate "/" rel

/-- Render the absolute path of a root-relative component list. -/
def renderAbs (env : SysEnv) (rel : List String) : String :=
  match rel with
  | [] => env.rootPath
  | _ => env.rootPath ++ "/" ++ renderRel rel

/-- One observable output of the run. -/
inductive Event where
  | header (path : String)
  | line (rel : List String) (l : CatalogDataLine)
  | member (rel : List String) (m : ArchiveMember)
  | skip (path : String)
deriving DecidableEq, Repr

/-- Classification outcome of the dispatch chain. -/
inductive EntryKind where
  | symlinkKind
  | directoryKind
  | fileKind
  | otherKind
deriving DecidableEq, Repr

/-- The entry dispatch condition chain of the traversal loop (lines
188/200/212/264): symlink is tested first, then directory, then regular
file, else other. -/
def classify (e : FSEntry) : EntryKind :=
  if e.is_symlink = true then EntryKind.symlinkKind
  else if e.is_dir = true then EntryKind.directoryKind
  else if e.is_file = true then EntryKind.fileKind
  else EntryKind.otherKind

/-- Process one directory entry (the body of the `for entry in
target_dir.iterdir()` loop, lines 180-265): the produced events in order,
and the queue items appended to `dirs_to_examine`. -/
def processEntry (env : SysEnv) (parentRel : List String) (e : FSEntry) :
    List Event × List (List String × List FSEntry) :=
  let rel := parentRel ++ [e.name]
  if e.is_symlink = true then
    ([Event.line rel (write_catalog e none),
      Event.member rel (tar_add env (renderRel rel) e)], [])
  else if e.is_dir = true then
    ([Event.line rel (write_catalog e none),
      Event.member rel (tar_add env (renderRel rel) e)],
     [(rel, e.childrenList)])
  else if e.is_file = true then
    -- The tar thread runs `write_to_archive`; if `addfile` raises, the
    -- exception dies with the daemon thread, join() still returns, and the
    -- catalog line is written anyway (the trace models runs that complete:
    -- with a dead consumer a file larger than the pipe buffer would instead
    -- deadlock the producer loop).
    ((match write_to_archive env (renderRel rel) e.lstat
        (conduitBytes e.contentBytes) with
      | Except.ok mem =>
          [Event.member rel mem,
           Event.line rel (write_catalog e (some (fileDigest e.contentBytes)))]
      | Except.error _ =>
          [Event.line rel (write_catalog e (some (fileDigest e.contentBytes)))]),
     [])
  else
    ([Event.skip (renderAbs env rel)], [])

/-- Weight of a forest: number of directory nodes in it, counting every
entry once.  Used as fuel for the queue recursion. -/
def forestWeight : List FSEntry → Nat
  | [] => 0
  | .dir _ _ cs :: es => 1 + forestWeight cs + forestWeight es
  | _ :: es => 1 + forestWeight es

/-- Weight of a queue of (relative path, directory listing) items. -/
def queueWeight : List (List String × List FSEntry) → Nat
  | [] => 0
  | (_, es) :: rest => 1 + forestWeight es + queueWeight rest

/-- One breadth-first step and recursion, fuelled: returns the event trace,
the entries in visit order (tagged with the relative path of the directory
being listed), and the dequeue order of directory paths.  With fuel at
least `queueWeight q` this computes the full run (see `bfsAux_fuel_irrel`). -/
def bfsAux (env : SysEnv) :
    Nat → List (List String × List FSEntry) →
    List Event × List (List String × FSEntry) × List (List String)
  | _, [] => ([], [], [])
  | 0, _ :: _ => ([], [], [])
  | fuel + 1, (rel, entries) :: rest =>
    let results := entries.map (processEntry env rel)
    let tail := bfsAux env fuel (rest ++ results.flatMap Prod.snd)
    (Event.header (renderAbs env rel) :: (results.flatMap Prod.fst ++ tail.1),
     entries.map (fun e => (rel, e)) ++ tail.2.1,
     rel :: tail.2.2)

/-- Event trace of running the traversal loop from a given queue. -/
def walkQueue (env : SysEnv) (q : List (List String × List FSEntry)) : List Event :=
  (bfsAux env (queueWeight q) q).1

/-- Entries in visit order, from a given queue. -/
def visitOrder (env : SysEnv) (q : List (List String × List FSEntry)) :
    List (List String × FSEntry) :=
  (bfsAux env (queueWeight q) q).2.1

/-- Dequeue order of directory relative paths, from a given queue. -/
def dequeueOrder (env : SysEnv) (q : List (List String × List FSEntry)) :
    List (List String) :=
  (bfsAux env (queueWeight q) q).2.2

/-- Full event trace of the script on a root directory whose listing is
`root`: the initial queue holds exactly `dir_path` (line 171). -/
def programTrace (env : SysEnv) (root : List FSEntry) : List Event :=
  walkQueue env [([], root)]

/-! ## Basic lemmas: chunking, digests, per-entry equations -/

theorem flatten_chunksOfAux (n : Nat) (hn : 0 < n) :
    ∀ (fuel : Nat) (l : List Nat), l.length ≤ fuel →
      (chunksOfAux n fuel l).flatten = l := by
  intro fuel
  induction fuel with
  | zero =>
    intro l hl
    cases l with
    | nil => simp [chunksOfAux]
    | cons b l => simp at hl
  | succ fuel ih =>
    intro l hl
    cases l with
    | nil => simp [chunksOfAux]
    | cons b l =>
      have hd : ((b :: l).drop n).length ≤ fuel := by
        simp only [List.length_drop, List.length_cons] at *
        omega
      simp only [chunksOfAux, List.flatten_cons, ih _ hd, List.take_append_drop]

theorem flatten_chunksOf (n : Nat) (hn : 0 < n) (l : List Nat) :
    (chunksOf n l).flatten = l :=
  flatten_chunksOfAux n hn l.length l (Nat.le_refl _)

theorem foldl_sha1_update (L : List (List Nat)) :
    ∀ acc : List Nat, L.foldl sha1_update acc = acc ++ L.flatten := by
  induction L with
  | nil => intro acc; simp
  | cons b L ih => intro acc; simp [sha1_update, ih, List.append_assoc]

/-- The block-by-block hashing loop computes exactly the SHA-1 of the whole
file content. -/
theorem fileDigest_eq_sha1 (content : List Nat) :
    fileDigest content = sha1Hex content := by
  unfold fileDigest sha1_hexdigest
  rw [foldl_sha1_update, List.nil_append, flatten_chunksOf 4096 (by norm_num)]

/-- The bytes written into the pipe are exactly the file's bytes. -/
theorem conduitBytes_eq (content : List Nat) : conduitBytes content = content :=
  flatten_chunksOf 4096 (by norm_num) content

@[simp] theorem processEntry_file (env : SysEnv) (rel : List String)
    (n : String) (m : StatMeta) (c : List Nat) :
    processEntry env rel (FSEntry.file n m c) =
      ((match write_to_archive env (renderRel (rel ++ [n]))
          (FSEntry.file n m c).lstat (conduitBytes c) with
        | Except.ok mem =>
            [Event.member (rel ++ [n]) mem,
             Event.line (rel ++ [n])
               (write_catalog (FSEntry.file n m c) (some (fileDigest c)))]
        | Except.error _ =>
            [Event.line (rel ++ [n])
              (write_catalog (FSEntry.file n m c) (some (fileDigest c)))]),
       []) := rfl

theorem processEntry_file_snd (env : SysEnv) (rel : List String)
    (n : String) (m : StatMeta) (c : List Nat) :
    (processEntry env rel (FSEntry.file n m c)).2 = [] := rfl

@[simp] theorem processEntry_dir (env : SysEnv) (rel : List String)
    (n : String) (m : StatMeta) (cs : List FSEntry) :
    processEntry env rel (FSEntry.dir n m cs) =
      ([Event.line (rel ++ [n]) (write_catalog (FSEntry.dir n m cs) none),
        Event.member (rel ++ [n]) (tar_add env (renderRel (rel ++ [n]))
          (FSEntry.dir n m cs))],
       [(rel ++ [n], cs)]) := rfl

@[simp] theorem processEntry_symlink (env : SysEnv) (rel : List String)
    (n : String) (m : StatMeta) (t : String) (tid tif : Bool) :
    processEntry env rel (FSEntry.symlink n m t tid tif) =
      ([Event.line (rel ++ [n]) (write_catalog (FSEntry.symlink n m t tid tif) none),
        Event.member (rel ++ [n]) (tar_add env (renderRel (rel ++ [n]))
          (FSEntry.symlink n m t tid tif))], []) := rfl

@[simp] theorem processEntry_other (env : SysEnv) (rel : List String)
    (n : String) (m : StatMeta) (tb : Nat) :
    processEntry env rel (FSEntry.other n m tb) =
      ([Event.skip (renderAbs env (rel ++ [n]))], []) := rfl

/-! ## Queue-weight lemmas and traversal unfolding equations -/

theorem queueWeight_append (a b : List (List String × List FSEntry)) :
    queueWeight (a ++ b) = queueWeight a + queueWeight b := by
  induction a with
  | nil => simp [queueWeight]
  | cons x a ih =>
    obtain ⟨r, es⟩ := x
    simp [queueWeight, ih]
    omega

theorem queueWeight_enqueues (env : SysEnv) (rel : List String) :
    ∀ es : List FSEntry,
      queueWeight ((es.map (processEntry env rel)).flatMap Prod.snd) ≤ forestWeight es := by
  intro es
  induction es with
  | nil => simp [queueWeight]
  | cons e es ih =>
    rw [List.map_cons, List.flatMap_cons, queueWeight_append]
    cases e with
    | file n m c =>
      rw [processEntry_file]
      simp only [forestWeight, queueWeight]
      omega
    | dir n m cs =>
      rw [processEntry_dir]
      simp only [forestWeight, queueWeight]
      omega
    | symlink n m t tid tif =>
      rw [processEntry_symlink]
      simp only [forestWeight, queueWeight]
      omega
    | other n m tb =>
      rw [processEntry_other]
      simp only [forestWeight, queueWeight]
      omega

theorem queueWeight_pos (x : List String × List FSEntry)
    (rest : List (List String × List FSEntry)) :
    0 < queueWeight (x :: rest) := by
  obtain ⟨r, es⟩ := x
  simp only [queueWeight]
  omega

theorem bfsAux_fuel_irrel (env : SysEnv) :
    ∀ (f₁ : Nat) (f₂ : Nat) (q : List (List String × List FSEntry)),
      queueWeight q ≤ f₁ → queueWeight q ≤ f₂ →
      bfsAux env f₁ q = bfsAux env f₂ q := by
  intro f₁
  induction f₁ with
  | zero =>
    intro f₂ q h1 h2
    cases q with
    | nil => cases f₂ <;> rfl
    | cons x rest =>
      have := queueWeight_pos x rest
      omega
  | succ f₁ ih =>
    intro f₂ q h1 h2
    cases q with
    | nil => cases f₂ <;> rfl
    | cons x rest =>
      obtain ⟨rel, es⟩ := x
      cases f₂ with
      | zero =>
        have := queueWeight_pos (rel, es) rest
        omega
      | succ f₂ =>
        have hq : queueWeight
            (rest ++ (es.map (processEntry env rel)).flatMap Prod.snd) ≤
            forestWeight es + queueWeight rest := by
          rw [queueWeight_append]
          have := queueWeight_enqueues env rel es
          omega
        have hw : queueWeight ((rel, es) :: rest) =
            1 + forestWeight es + queueWeight rest := rfl
        simp only [bfsAux]
        rw [ih f₂ _ (by omega) (by omega)]

/-- Unfolding equation for a non-empty queue, phrased through the fuelled
wrappers. -/
theorem bfsAux_run_cons (env : SysEnv) (rel : List String) (es : List FSEntry)
    (rest : List (List String × List FSEntry)) :
    bfsAux env (queueWeight ((rel, es) :: rest)) ((rel, es) :: rest) =
      (Event.header (renderAbs env rel) ::
        ((es.map (processEntry env rel)).flatMap Prod.fst ++
          walkQueue env (rest ++ (es.map (processEntry env rel)).flatMap Prod.snd)),
       es.map (fun e => (rel, e)) ++
         visitOrder env (rest ++ (es.map (processEntry env rel)).flatMap Prod.snd),
       rel :: dequeueOrder env (rest ++ (es.map (processEntry env rel)).flatMap Prod.snd)) := by
  have hw : queueWeight ((rel, es) :: rest) =
      (forestWeight es + queueWeight rest) + 1 := by
    show 1 + forestWeight es + queueWeight rest = _
    omega
  rw [hw]
  show (let results := es.map (processEntry env rel)
        let tail := bfsAux env (forestWeight es + queueWeight rest)
          (rest ++ results.flatMap Prod.snd)
        (Event.header (renderAbs env rel) :: (results.flatMap Prod.fst ++ tail.1),
         es.map (fun e => (rel, e)) ++ tail.2.1,
         rel :: tail.2.2)) = _
  have hq : queueWeight (rest ++ (es.map (processEntry env rel)).flatMap Prod.snd) ≤
      forestWeight es + queueWeight rest := by
    rw [queueWeight_append]
    have := queueWeight_enqueues env rel es
    omega
  have ht : bfsAux env (forestWeight es + queueWeight rest)
      (rest ++ (es.map (processEntry env rel)).flatMap Prod.snd) =
      bfsAux env (queueWeight (rest ++ (es.map (processEntry env rel)).flatMap Prod.snd))
      (rest ++ (es.map (processEntry env rel)).flatMap Prod.snd) :=
    bfsAux_fuel_irrel env _ _ _ hq (Nat.le_refl _)
  simp only [ht]
  rfl

theorem walkQueue_nil (env : SysEnv) : walkQueue env [] = [] := rfl

theorem walkQueue_cons (env : SysEnv) (rel : List String) (es : List FSEntry)
    (rest : List (List String × List FSEntry)) :
    walkQueue env ((rel, es) :: rest) =
      Event.header (renderAbs env rel) ::
        ((es.map (processEntry env rel)).flatMap Prod.fst ++
          walkQueue env (rest ++ (es.map (processEntry env rel)).flatMap Prod.snd)) :=
  congrArg (fun t => t.1) (bfsAux_run_cons env rel es rest)

theorem visitOrder_nil (env : SysEnv) : visitOrder env [] = [] := rfl

theorem visitOrder_cons (env : SysEnv) (rel : List String) (es : List FSEntry)
    (rest : List (List String × List FSEntry)) :
    visitOrder env ((rel, es) :: rest) =
      es.map (fun e => (rel, e)) ++
        visitOrder env (rest ++ (es.map (processEntry env rel)).flatMap Prod.snd) :=
  congrArg (fun t => t.2.1) (bfsAux_run_cons env rel es rest)

theorem dequeueOrder_nil (env : SysEnv) : dequeueOrder env [] = [] := rfl

theorem dequeueOrder_cons (env : SysEnv) (rel : List String) (es : List FSEntry)
    (rest : List (List String × List FSEntry)) :
    dequeueOrder env ((rel, es) :: rest) =
      rel :: dequeueOrder env (rest ++ (es.map (processEntry env rel)).flatMap Prod.snd) :=
  congrArg (fun t => t.2.2) (bfsAux_run_cons env rel es rest)

/-! ## Mode-bit lemmas

Permission bits live in the low 12 bits of `st_mode`, so they never
perturb the `S_IFMT` type nibble. -/

theorem or_low_and_mask (t low : Nat) (hlow : low < 4096) :
    ((t <<< 12 ||| low) &&& (15 <<< 12)) = (t &&& 15) <<< 12 := by
  apply Nat.eq_of_testBit_eq
  intro i
  rw [Nat.testBit_land, Nat.testBit_lor, Nat.testBit_shiftLeft,
    Nat.testBit_shiftLeft, Nat.testBit_shiftLeft, Nat.testBit_land]
  by_cases h : 12 ≤ i
  · have hl : low.testBit i = false := by
      apply Nat.testBit_eq_false_of_lt
      calc low < 4096 := hlow
        _ = 2 ^ 12 := by norm_num
        _ ≤ 2 ^ i := Nat.pow_le_pow_right (by norm_num) h
    simp only [hl, Bool.or_false]
    cases decide (12 ≤ i) <;> cases t.testBit (i - 12) <;>
      cases Nat.testBit 15 (i - 12) <;> rfl
  · simp [h]

theorem S_ISDIR_reg_mode (p : Nat) : S_ISDIR (0o100000 ||| p % 4096) = false := by
  simp only [S_ISDIR]
  rw [show (0o100000 : Nat) = 8 <<< 12 by decide,
    show (0o170000 : Nat) = 15 <<< 12 by decide,
    or_low_and_mask 8 (p % 4096) (Nat.mod_lt _ (by norm_num))]
  decide

theorem S_ISDIR_lnk_mode (p : Nat) : S_ISDIR (0o120000 ||| p % 4096) = false := by
  simp only [S_ISDIR]
  rw [show (0o120000 : Nat) = 10 <<< 12 by decide,
    show (0o170000 : Nat) = 15 <<< 12 by decide,
    or_low_and_mask 10 (p % 4096) (Nat.mod_lt _ (by norm_num))]
  decide

theorem S_ISDIR_dir_mode (p : Nat) : S_ISDIR (0o040000 ||| p % 4096) = true := by
  simp only [S_ISDIR]
  rw [show (0o040000 : Nat) = 4 <<< 12 by decide,
    show (0o170000 : Nat) = 15 <<< 12 by decide,
    or_low_and_mask 4 (p % 4096) (Nat.mod_lt _ (by norm_num))]
  decide

/-- Catalog line written for a regular file: sizes come out decimal, never
`N/A`. -/
theorem write_catalog_file (n : String) (m : StatMeta) (c : List Nat)
    (checksum : Option String) :
    write_catalog (FSEntry.file n m c) checksum =
      ⟨filemode (0o100000 ||| m.perm % 4096),
       (match checksum with | none => zeroDigest | some s => s),
       toString c.length, m.mtime, n⟩ := by
  simp only [write_catalog, FSEntry.lstat, FSEntry.name, S_ISDIR_reg_mode,
    Bool.false_eq_true, if_false]

/-- Catalog line written for a symlink: `S_ISDIR` of the link's own lstat
mode is false, so the size field is the symlink's own `st_size` — the byte
length of its target path. -/
theorem write_catalog_symlink (n : String) (m : StatMeta) (t : String)
    (tid tif : Bool) (checksum : Option String) :
    write_catalog (FSEntry.symlink n m t tid tif) checksum =
      ⟨filemode (0o120000 ||| m.perm % 4096),
       (match checksum with | none => zeroDigest | some s => s),
       toString t.utf8ByteSize, m.mtime, n⟩ := by
  simp only [write_catalog, FSEntry.lstat, FSEntry.name, S_ISDIR_lnk_mode,
    Bool.false_eq_true, if_false]

/-! ## Event counting and event tags -/

/-- Catalog data line events. -/
def isLine : Event → Bool
  | .line _ _ => true
  | _ => false

/-- Archive member events. -/
def isMember : Event → Bool
  | .member _ _ => true
  | _ => false

/-- Number of catalog data lines in a trace (directory header lines are a
different constructor and are not counted). -/
def countLines (t : List Event) : Nat := (t.filter isLine).length

/-- Number of archive members in a trace. -/
def countMembers (t : List Event) : Nat := (t.filter isMember).length

theorem countLines_append (a b : List Event) :
    countLines (a ++ b) = countLines a + countLines b := by
  simp [countLines, List.filter_append]

theorem countMembers_append (a b : List Event) :
    countMembers (a ++ b) = countMembers a + countMembers b := by
  simp [countMembers, List.filter_append]

/-- Per-entry line count: exactly one catalog data line for
symlink/directory/file (whether or not the file's archive write survives
the PAX member creation), none for other. -/
theorem processEntry_countLines (env : SysEnv) (rel : List String) (e : FSEntry) :
    countLines (processEntry env rel e).1 =
      (if classify e = EntryKind.otherKind then 0 else 1) := by
  cases e with
  | file n m c =>
    rw [processEntry_file]
    cases write_to_archive env (renderRel (rel ++ [n])) (FSEntry.file n m c).lstat
        (conduitBytes c) <;>
      simp [classify, FSEntry.is_symlink, FSEntry.is_dir, FSEntry.is_file,
        countLines, isLine]
  | dir n m cs =>
    rw [processEntry_dir]
    simp [classify, FSEntry.is_symlink, FSEntry.is_dir, FSEntry.is_file,
      countLines, isLine]
  | symlink n m t tid tif =>
    rw [processEntry_symlink]
    simp [classify, FSEntry.is_symlink, FSEntry.is_dir, FSEntry.is_file,
      countLines, isLine]
  | other n m tb =>
    rw [processEntry_other]
    simp [classify, FSEntry.is_symlink, FSEntry.is_dir, FSEntry.is_file,
      countLines, isLine]

/-- Relative path tagged on a data event (line or member), if any. -/
def evRel : Event → Option (List String)
  | .line r _ => some r
  | .member r _ => some r
  | _ => none

/-- Every data event an entry produces is tagged with that entry's relative
path, which extends the parent's path by the entry name. -/
theorem processEntry_evRel (env : SysEnv) (rel0 : List String) (e : FSEntry) :
    ∀ ev ∈ (processEntry env rel0 e).1, ∀ r, evRel ev = some r →
      r = rel0 ++ [e.name] := by
  intro ev hev r hr
  cases e with
  | file n m c =>
    rw [processEntry_file] at hev
    cases hw : write_to_archive env (renderRel (rel0 ++ [n]))
        (FSEntry.file n m c).lstat (conduitBytes c) with
    | ok mem =>
      rw [hw] at hev
      simp only [List.mem_cons, List.not_mem_nil, or_false] at hev
      rcases hev with h | h <;> subst h <;>
        simp only [evRel, Option.some.injEq] at hr <;>
        simp [FSEntry.name, hr.symm]
    | error err =>
      rw [hw] at hev
      simp only [List.mem_cons, List.not_mem_nil, or_false] at hev
      subst hev
      simp only [evRel, Option.some.injEq] at hr
      simp [FSEntry.name, hr.symm]
  | dir n m cs =>
    rw [processEntry_dir] at hev
    simp only [List.mem_cons, List.not_mem_nil, or_false] at hev
    rcases hev with h | h <;> subst h <;>
      simp only [evRel, Option.some.injEq] at hr <;>
      simp [FSEntry.name, hr.symm]
  | symlink n m t tid tif =>
    rw [processEntry_symlink] at hev
    simp only [List.mem_cons, List.not_mem_nil, or_false] at hev
    rcases hev with h | h <;> subst h <;>
      simp only [evRel, Option.some.injEq] at hr <;>
      simp [FSEntry.name, hr.symm]
  | other n m tb =>
    rw [processEntry_other] at hev
    simp only [List.mem_cons, List.not_mem_nil, or_false] at hev
    subst hev
    simp [evRel] at hr

/-! ## The per-file relay (lines 218-256) and thread-join semantics

`os.pipe()` returns `(read_fd, write_fd)`; the script's
`buffer_fd_tuple[0]` is therefore the read (consumer) end opened `'rb'` as
`buffer_out_obj`, and `buffer_fd_tuple[1]` the write (producer) end opened
`'wb'` as `buffer_in_obj` (the code comment labelling the tuple
`(writer_fd, reader_fd)` mislabels it).  After `tar_thread.join()` the
script closes `buffer_out_obj` first, then `buffer_in_obj`. -/

/-- The two ends of the pipe used as the byte conduit. -/
inductive PipeEnd where
  | readEnd
  | writeEnd
deriving DecidableEq, Repr

/-- Model of `os.pipe()`: the pair (read end, write end). -/
def os_pipe : PipeEnd × PipeEnd := (PipeEnd.readEnd, PipeEnd.writeEnd)

/-- Observable steps of the per-file relay. -/
inductive RelayEvent where
  | spawnConsumer
  | hashUpdate (block : List Nat)
  | writeConduit (block : List Nat)
  | flushConduit
  | joinConsumer
  | closeFd (e : PipeEnd)
deriving DecidableEq, Repr

/-- Step trace of the relay for one file (lines 218-256): spawn the tar
thread; for each 4096-byte block read, update the hash, write the block to
the conduit and flush it; join the thread; close `buffer_out_obj`
(`fdopen(buffer_fd_tuple[0], 'rb')`), then `buffer_in_obj`
(`fdopen(buffer_fd_tuple[1], 'wb')`). -/
def relayTrace (content : List Nat) : List RelayEvent :=
  let buffer_out_obj := os_pipe.1
  let buffer_in_obj := os_pipe.2
  RelayEvent.spawnConsumer ::
    ((chunksOf 4096 content).flatMap
        (fun b => [RelayEvent.hashUpdate b, RelayEvent.writeConduit b,
          RelayEvent.flushConduit]) ++
      [RelayEvent.joinConsumer, RelayEvent.closeFd buffer_out_obj,
        RelayEvent.closeFd buffer_in_obj])

/-- Pipe end closed by a relay event, if any. -/
def closePayload : RelayEvent → Option PipeEnd
  | RelayEvent.closeFd e => some e
  | _ => none

/-- The pipe ends closed by a relay trace, in closing order. -/
def closeSeq (t : List RelayEvent) : List PipeEnd := t.filterMap closePayload

theorem closeSeq_blocks (L : List (List Nat)) :
    closeSeq (L.flatMap (fun b => [RelayEvent.hashUpdate b,
      RelayEvent.writeConduit b, RelayEvent.flushConduit])) = [] := by
  induction L with
  | nil => rfl
  | cons b L ih =>
    simpa [closeSeq, List.filterMap_append, List.filterMap_cons, closePayload] using ih

/-- Outcome of the script's `tar_thread` as observed by the main thread. -/
structure ThreadJoinOutcome where
  excepthookReport : Option String
  raisedAtJoin : Option String
deriving DecidableEq, Repr

/-- Model of CPython `threading` semantics for `tar_thread` (lines 228-254,
a `threading.Thread` with `daemon=True` whose target is
`write_to_archive`): if the target raises, the thread machinery hands the
exception to `threading.excepthook`, which prints it to stderr in the
thread's own context; `Thread.join()` only waits for termination and
always returns `None` — it never re-raises the thread's exception. -/
def tar_thread_join (outcome : Except String Unit) : ThreadJoinOutcome :=
  match outcome with
  | .ok _ => ⟨none, none⟩
  | .error e => ⟨some e, none⟩

/-! ## Trace-level counting and tagging lemmas -/

theorem countLines_header (p : String) (t : List Event) :
    countLines (Event.header p :: t) = countLines t := by
  simp [countLines, List.filter_cons, isLine]

theorem countMembers_header (p : String) (t : List Event) :
    countMembers (Event.header p :: t) = countMembers t := by
  simp [countMembers, List.filter_cons, isMember]

/-- Weight bound for the queue after one step. -/
theorem queueWeight_step (env : SysEnv) (rel : List String) (es : List FSEntry)
    (rest : List (List String × List FSEntry)) (W : Nat)
    (h : queueWeight ((rel, es) :: rest) ≤ W + 1) :
    queueWeight (rest ++ (es.map (processEntry env rel)).flatMap Prod.snd) ≤ W := by
  rw [queueWeight_append]
  have h1 := queueWeight_enqueues env rel es
  have h2 : queueWeight ((rel, es) :: rest) =
      1 + forestWeight es + queueWeight rest := rfl
  omega

theorem walk_evRel (env : SysEnv) :
    ∀ (W : Nat) (q : List (List String × List FSEntry)), queueWeight q ≤ W →
      ∀ ev ∈ walkQueue env q, ∀ r, evRel ev = some r → r ≠ [] := by
  intro W
  induction W with
  | zero =>
    intro q hq
    cases q with
    | nil => intro ev hev; simp [walkQueue_nil] at hev
    | cons x rest =>
      have := queueWeight_pos x rest
      omega
  | succ W ih =>
    intro q hq
    cases q with
    | nil => intro ev hev; simp [walkQueue_nil] at hev
    | cons x rest =>
      obtain ⟨rel, es⟩ := x
      intro ev hev r hr
      rw [walkQueue_cons] at hev
      rcases List.mem_cons.mp hev with h | h
      · subst h; simp [evRel] at hr
      · rcases List.mem_append.mp h with h | h
        · rcases List.mem_flatMap.mp h with ⟨evs, hevs, hev2⟩
          rcases List.mem_map.mp hevs with ⟨e, he, rfl⟩
          have := processEntry_evRel env rel e ev hev2 r hr
          subst this
          simp
        · exact ih _ (queueWeight_step env rel es rest W hq) ev h r hr

/-- Concrete system environment used by the closed witnesses: every uid/gid
is unknown, and the archive root is `/src`. -/
def envW : SysEnv :=
  ⟨fun _ => Except.error (), fun _ => Except.error (), "/src"⟩

/-! ## Queue bookkeeping: which directories get enqueued, and their paths -/

/-- The queue items contributed by one directory listing: exactly its
directory children, in listing order, with the child's relative path. -/
def dirChildren (rel : List String) : List FSEntry →
    List (List String × List FSEntry)
  | [] => []
  | FSEntry.dir n _ cs :: es => (rel ++ [n], cs) :: dirChildren rel es
  | _ :: es => dirChildren rel es

/-- Relative paths (as component lists) of all directory descendants of a
forest, in depth-first listing order. -/
def dirPaths : List FSEntry → List (List String)
  | [] => []
  | FSEntry.dir n _ cs :: es =>
      ([n] :: (dirPaths cs).map (fun p => n :: p)) ++ dirPaths es
  | _ :: es => dirPaths es

/-- All directory paths a queue item will ever contribute to the dequeue
order: its own path followed by all its directory descendants. -/
def PathsOf (x : List String × List FSEntry) : List (List String) :=
  x.1 :: (dirPaths x.2).map (fun p => x.1 ++ p)

/-- Sibling names are pairwise distinct (as every real directory listing
guarantees). -/
def distinctNames : List FSEntry → Bool
  | [] => true
  | e :: es => (!(es.map FSEntry.name).contains e.name) && distinctNames es

/-- Every directory listing anywhere below has pairwise distinct names. -/
def wfAll : List FSEntry → Bool
  | [] => true
  | FSEntry.dir _ _ cs :: es => (distinctNames cs && wfAll cs) && wfAll es
  | _ :: es => wfAll es

/-- Well-formed forest: distinct sibling names at every level. -/
def wfForest (es : List FSEntry) : Bool := distinctNames es && wfAll es

theorem enqueues_eq_dirChildren (env : SysEnv) (rel : List String) :
    ∀ es : List FSEntry,
      (es.map (processEntry env rel)).flatMap Prod.snd = dirChildren rel es := by
  intro es
  induction es with
  | nil => simp [dirChildren]
  | cons e es ih =>
    rw [List.map_cons, List.flatMap_cons]
    cases e with
    | file n m c =>
      rw [processEntry_file, ih]
      simp [dirChildren]
    | dir n m cs =>
      rw [processEntry_dir, ih]
      simp [dirChildren]
    | symlink n m t tid tif =>
      rw [processEntry_symlink, ih]
      simp [dirChildren]
    | other n m tb =>
      rw [processEntry_other, ih]
      simp [dirChildren]

theorem flatten_paths_dirChildren (rel : List String) :
    ∀ es : List FSEntry,
      ((dirChildren rel es).map PathsOf).flatten =
        (dirPaths es).map (fun p => rel ++ p) := by
  intro es
  induction es with
  | nil => simp [dirChildren, dirPaths]
  | cons e es ih =>
    cases e with
    | dir n m cs =>
      simp only [dirChildren, dirPaths]
      simp only [List.map_cons, List.flatten_cons, List.map_append, ih, PathsOf,
        List.map_map]
      simp [Function.comp_def, List.append_assoc]
    | file n m c =>
      simp only [dirChildren, dirPaths]
      exact ih
    | symlink n m t tid tif =>
      simp only [dirChildren, dirPaths]
      exact ih
    | other n m tb =>
      simp only [dirChildren, dirPaths]
      exact ih

/-- Every dequeued path is dequeued exactly as often as the queue promises
it: the dequeue order is a permutation of all queue items' own paths and
their directory-descendant paths. -/
theorem dequeue_perm (env : SysEnv) :
    ∀ (W : Nat) (q : List (List String × List FSEntry)), queueWeight q ≤ W →
      (dequeueOrder env q).Perm ((q.map PathsOf).flatten) := by
  intro W
  induction W with
  | zero =>
    intro q hq
    cases q with
    | nil => exact List.Perm.refl _
    | cons x rest =>
      have := queueWeight_pos x rest
      omega
  | succ W ih =>
    intro q hq
    cases q with
    | nil => exact List.Perm.refl _
    | cons x rest =>
      obtain ⟨rel, es⟩ := x
      rw [dequeueOrder_cons]
      have hIH := ih _ (queueWeight_step env rel es rest W hq)
      have hflat : (((rest ++ (es.map (processEntry env rel)).flatMap Prod.snd).map
          PathsOf).flatten) =
          ((rest.map PathsOf).flatten ++ (dirPaths es).map (fun p => rel ++ p)) := by
        rw [List.map_append, List.flatten_append, enqueues_eq_dirChildren,
          flatten_paths_dirChildren]
      rw [hflat] at hIH
      have hgoal : ((((rel, es) :: rest).map PathsOf).flatten) =
          rel :: ((dirPaths es).map (fun p => rel ++ p) ++
            (rest.map PathsOf).flatten) := by
        simp only [List.map_cons, List.flatten_cons, PathsOf]
        rfl
      rw [hgoal]
      exact (hIH.trans List.perm_append_comm).cons rel

theorem dirPaths_mem :
    ∀ (es : List FSEntry) (p : List String), p ∈ dirPaths es →
      ∃ hd tl, p = hd :: tl ∧ hd ∈ es.map FSEntry.name := by
  intro es
  induction es with
  | nil => intro p hp; simp [dirPaths] at hp
  | cons e es ih =>
    intro p hp
    cases e with
    | dir n m cs =>
      simp only [dirPaths] at hp
      rcases List.mem_append.mp hp with h | h
      · rcases List.mem_cons.mp h with h | h
        · exact ⟨n, [], h, by simp [FSEntry.name]⟩
        · rcases List.mem_map.mp h with ⟨q, _, rfl⟩
          exact ⟨n, q, rfl, by simp [FSEntry.name]⟩
      · rcases ih p h with ⟨hd, tl, rfl, hmem⟩
        exact ⟨hd, tl, rfl, by simp [hmem]⟩
    | file n m c =>
      simp only [dirPaths] at hp
      rcases ih p hp with ⟨hd, tl, rfl, hmem⟩
      exact ⟨hd, tl, rfl, by simp [hmem]⟩
    | symlink n m t tid tif =>
      simp only [dirPaths] at hp
      rcases ih p hp with ⟨hd, tl, rfl, hmem⟩
      exact ⟨hd, tl, rfl, by simp [hmem]⟩
    | other n m tb =>
      simp only [dirPaths] at hp
      rcases ih p hp with ⟨hd, tl, rfl, hmem⟩
      exact ⟨hd, tl, rfl, by simp [hmem]⟩

theorem dirPaths_ne_nil (es : List FSEntry) (p : List String)
    (hp : p ∈ dirPaths es) : p ≠ [] := by
  rcases dirPaths_mem es p hp with ⟨hd, tl, rfl, _⟩
  simp

theorem distinctNames_head (e : FSEntry) (es : List FSEntry)
    (h : distinctNames (e :: es) = true) :
    e.name ∉ es.map FSEntry.name ∧ distinctNames es = true := by
  simp only [distinctNames, Bool.and_eq_true, Bool.not_eq_true'] at h
  refine ⟨?_, h.2⟩
  intro hmem
  rw [show ((es.map FSEntry.name).contains e.name) = true from
    List.elem_iff.mpr hmem] at h
  exact Bool.noConfusion h.1

theorem dirPaths_nodup :
    ∀ (W : Nat) (es : List FSEntry), forestWeight es ≤ W →
      distinctNames es = true → wfAll es = true → (dirPaths es).Nodup := by
  intro W
  induction W with
  | zero =>
    intro es hw _ _
    cases es with
    | nil => simp [dirPaths]
    | cons e es =>
      exfalso
      cases e <;> simp [forestWeight] at hw
  | succ W ih =>
    intro es hw hdn hwf
    cases es with
    | nil => simp [dirPaths]
    | cons e es =>
      obtain ⟨hnm, hdn'⟩ := distinctNames_head e es hdn
      cases e with
      | dir n m cs =>
        simp only [dirPaths]
        simp only [wfAll, Bool.and_eq_true] at hwf
        simp only [forestWeight] at hw
        apply List.Nodup.append
        · apply List.Nodup.cons
          · intro hbad
            rcases List.mem_map.mp hbad with ⟨q, hq, heq⟩
            have hq0 : q = [] := by
              injection heq
            exact dirPaths_ne_nil cs q hq hq0
          · apply List.Nodup.map
            · intro a b hab
              simpa using hab
            · exact ih cs (by omega) hwf.1.1 hwf.1.2
        · exact ih es (by omega) hdn' hwf.2
        · intro p hp hp'
          rcases dirPaths_mem es p hp' with ⟨hd, tl, rfl, hmem⟩
          have hhd : hd = n := by
            rcases List.mem_cons.mp hp with h | h
            · injection h
            · rcases List.mem_map.mp h with ⟨q, _, heq⟩
              injection heq.symm
          rw [hhd] at hmem
          simp only [FSEntry.name] at hnm
          exact hnm hmem
      | file n m c =>
        simp only [dirPaths]
        simp only [wfAll] at hwf
        simp only [forestWeight] at hw
        exact ih es (by omega) hdn' hwf
      | symlink n m t tid tif =>
        simp only [dirPaths]
        simp only [wfAll] at hwf
        simp only [forestWeight] at hw
        exact ih es (by omega) hdn' hwf
      | other n m tb =>
        simp only [dirPaths]
        simp only [wfAll] at hwf
        simp only [forestWeight] at hw
        exact ih es (by omega) hdn' hwf

/-! ## Data-event order equals visit order -/

/-- Catalog data lines and archive members of a trace, in order (headers
and skip notices dropped). -/
def dataEvents (t : List Event) : List Event :=
  t.filter (fun ev => isLine ev || isMember ev)

theorem dataEvents_append (a b : List Event) :
    dataEvents (a ++ b) = dataEvents a ++ dataEvents b := by
  simp [dataEvents, List.filter_append]

theorem dataEvents_flatMap {α : Type} (L : List α) (f : α → List Event) :
    dataEvents (L.flatMap f) = L.flatMap (fun x => dataEvents (f x)) := by
  induction L with
  | nil => rfl
  | cons x L ih => rw [List.flatMap_cons, List.flatMap_cons, dataEvents_append, ih]

theorem walk_dataEvents (env : SysEnv) :
    ∀ (W : Nat) (q : List (List String × List FSEntry)), queueWeight q ≤ W →
      dataEvents (walkQueue env q) =
        (visitOrder env q).flatMap
          (fun pe => dataEvents (processEntry env pe.1 pe.2).1) := by
  intro W
  induction W with
  | zero =>
    intro q hq
    cases q with
    | nil => rfl
    | cons x rest =>
      have := queueWeight_pos x rest
      omega
  | succ W ih =>
    intro q hq
    cases q with
    | nil => rfl
    | cons x rest =>
      obtain ⟨rel, es⟩ := x
      rw [walkQueue_cons, visitOrder_cons]
      have hhd : dataEvents (Event.header (renderAbs env rel) ::
          ((es.map (processEntry env rel)).flatMap Prod.fst ++
            walkQueue env (rest ++ (es.map (processEntry env rel)).flatMap Prod.snd))) =
          dataEvents ((es.map (processEntry env rel)).flatMap Prod.fst) ++
          dataEvents (walkQueue env
            (rest ++ (es.map (processEntry env rel)).flatMap Prod.snd)) := by
        simp [dataEvents, List.filter_append, isLine, isMember]
      rw [hhd, ih _ (queueWeight_step env rel es rest W hq), dataEvents_flatMap,
        List.flatMap_append]
      simp only [List.flatMap_map]

/-- A directory entry's enqueue happens in the same dispatch step that has
already emitted, in order, exactly its catalog line and its archive
member. -/
theorem enqueue_only_after_emit (env : SysEnv) (rel : List String) (e : FSEntry) :
    ∀ x ∈ (processEntry env rel e).2,
      x.1 = rel ++ [e.name] ∧
      (processEntry env rel e).1 =
        [Event.line x.1 (write_catalog e none),
         Event.member x.1 (tar_add env (renderRel x.1) e)] := by
  intro x hx
  cases e with
  | dir n m cs =>
    rw [processEntry_dir] at hx ⊢
    rcases List.mem_cons.mp hx with h | h
    · subst h
      exact ⟨rfl, rfl⟩
    · simp at h
  | file n m c =>
    rw [processEntry_file] at hx
    simp at hx
  | symlink n m t tid tif =>
    rw [processEntry_symlink] at hx
    simp at hx
  | other n m tb =>
    rw [processEntry_other] at hx
    simp at hx

/-! ## Claims -/

set_option maxRecDepth 10000

/-- C1: for every regular file visited by the traversal, the digest written
to its catalog line equals the SHA-1 hash of the file's byte content,
computed by folding the hash update over successive 4096-byte blocks (this
is `fileDigest`, which equals the one-shot SHA-1); the file branch always
writes exactly that catalog line (and, whenever `addfile` succeeds, the
member drained from the conduit first); in particular the 5-byte file
containing "world" yields the digest
7c211433f02071597741e6ff5a8ea34789abbf43 and catalog size field 5. -/
theorem c1_catalog_digest_is_sha1 :
    (∀ content : List Nat, fileDigest content = sha1Hex content) ∧
    (∀ (env : SysEnv) (rel : List String) (n : String) (m : StatMeta)
        (content : List Nat),
      (processEntry env rel (FSEntry.file n m content)).1 =
        (match write_to_archive env (renderRel (rel ++ [n]))
            (FSEntry.file n m content).lstat content with
         | Except.ok mem =>
             [Event.member (rel ++ [n]) mem,
              Event.line (rel ++ [n]) (write_catalog (FSEntry.file n m content)
                (some (sha1Hex content)))]
         | Except.error _ =>
             [Event.line (rel ++ [n]) (write_catalog (FSEntry.file n m content)
               (some (sha1Hex content)))]) ∧
      (write_catalog (FSEntry.file n m content) (some (sha1Hex content))).checksum =
        sha1Hex content ∧
      (write_catalog (FSEntry.file n m content) (some (sha1Hex content))).sizeField =
        toString content.length) ∧
    fileDigest [119, 111, 114, 108, 100] =
      "7c211433f02071597741e6ff5a8ea34789abbf43" ∧
    (write_catalog (FSEntry.file "hello.txt" ⟨0o644, 1000, 1000, 0⟩
          [119, 111, 114, 108, 100])
        (some (fileDigest [119, 111, 114, 108, 100]))).sizeField = "5" := by
  refine ⟨fileDigest_eq_sha1, ?_, by decide, ?_⟩
  · intro env rel n m content
    refine ⟨?_, ?_, ?_⟩
    · rw [processEntry_file]
      simp only [conduitBytes_eq, fileDigest_eq_sha1]
    · rw [write_catalog_file]
    · rw [write_catalog_file]
  · rw [write_catalog_file]
    rfl

/-- C2: the dispatch applies its checks in the fixed order is-symlink,
is-directory, is-regular-file, otherwise Other; consequently a symlink —
even one whose target is a directory — is classified Symlink, archived as
a symlink member carrying its link target with no payload (never
dereferenced), and never enqueued for descent. -/
theorem c2_classification_order :
    ∀ (e : FSEntry) (env : SysEnv) (rel : List String),
      (classify e = EntryKind.symlinkKind ↔ e.is_symlink = true) ∧
      (classify e = EntryKind.directoryKind ↔
        (e.is_symlink = false ∧ e.is_dir = true)) ∧
      (classify e = EntryKind.fileKind ↔
        (e.is_symlink = false ∧ e.is_dir = false ∧ e.is_file = true)) ∧
      (classify e = EntryKind.otherKind ↔
        (e.is_symlink = false ∧ e.is_dir = false ∧ e.is_file = false)) ∧
      (e.is_symlink = true →
        classify e = EntryKind.symlinkKind ∧
        (processEntry env rel e).2 = [] ∧
        (tar_add env (renderRel (rel ++ [e.name])) e).mtype = MemberType.sym ∧
        (tar_add env (renderRel (rel ++ [e.name])) e).linkname = some e.linkTarget ∧
        (tar_add env (renderRel (rel ++ [e.name])) e).payload = []) := by
  intro e env rel
  refine ⟨?_, ?_, ?_, ?_, ?_⟩
  · cases e <;> simp [classify, FSEntry.is_symlink, FSEntry.is_dir, FSEntry.is_file]
  · cases e <;> simp [classify, FSEntry.is_symlink, FSEntry.is_dir, FSEntry.is_file]
  · cases e <;> simp [classify, FSEntry.is_symlink, FSEntry.is_dir, FSEntry.is_file]
  · cases e <;> simp [classify, FSEntry.is_symlink, FSEntry.is_dir, FSEntry.is_file]
  · intro hs
    cases e with
    | symlink n m t tid tif => exact ⟨rfl, rfl, rfl, rfl, rfl⟩
    | file n m c => exact absurd hs (by simp [FSEntry.is_symlink])
    | dir n m cs => exact absurd hs (by simp [FSEntry.is_symlink])
    | other n m tb => exact absurd hs (by simp [FSEntry.is_symlink])

/-- C2 witness: a symlink whose target is a directory is classified
Symlink and enqueues nothing. -/
theorem c2_witness :
    classify (FSEntry.symlink "d" ⟨0o777, 0, 0, 0⟩ "/tmp" true false) =
      EntryKind.symlinkKind ∧
    (processEntry envW []
      (FSEntry.symlink "d" ⟨0o777, 0, 0, 0⟩ "/tmp" true false)).2 = [] := by
  have h := (c2_classification_order
    (FSEntry.symlink "d" ⟨0o777, 0, 0, 0⟩ "/tmp" true false) envW []).2.2.2.2 rfl
  exact ⟨h.1, h.2.1⟩

/-- C3 (code-bug evidence): for the script's `tar_thread`, a failure of the
consumer task is reported only through `threading.excepthook` (stderr) and
is never re-raised at the `join()` call — the main path observes no error,
contrary to the claim that the failure is propagated synchronously at the
join point. -/
theorem c3_join_swallows_consumer_failure :
    (∀ e : String, tar_thread_join (Except.error e) =
      { excepthookReport := some e, raisedAtJoin := none }) ∧
    (tar_thread_join (Except.error "ArchiveWriteFailure")).raisedAtJoin = none ∧
    (tar_thread_join (Except.ok ())).raisedAtJoin =
      (tar_thread_join (Except.error "ArchiveWriteFailure")).raisedAtJoin :=
  ⟨fun _ => rfl, rfl, rfl⟩

/-- C4 counterexample: the relay does not close the producer (write) side
first — on the concrete file "world" the closing order is not
producer-then-consumer. -/
theorem c4_counterexample :
    closeSeq (relayTrace [119, 111, 114, 108, 100]) ≠
      [PipeEnd.writeEnd, PipeEnd.readEnd] := by
  decide

/-- C4 (amended): after the join the relay closes the consumer (read) end
of the conduit first — `buffer_out_obj`, `fdopen` of `pipe()[0]` — and
then the producer (write) end, `buffer_in_obj`. -/
theorem c4_close_order :
    ∀ content : List Nat,
      (∃ pre, relayTrace content =
        pre ++ [RelayEvent.joinConsumer, RelayEvent.closeFd PipeEnd.readEnd,
          RelayEvent.closeFd PipeEnd.writeEnd]) ∧
      closeSeq (relayTrace content) = [PipeEnd.readEnd, PipeEnd.writeEnd] := by
  intro content
  constructor
  · refine ⟨RelayEvent.spawnConsumer ::
      (chunksOf 4096 content).flatMap
        (fun b => [RelayEvent.hashUpdate b, RelayEvent.writeConduit b,
          RelayEvent.flushConduit]), ?_⟩
    simp [relayTrace, os_pipe]
  · have h := closeSeq_blocks (chunksOf 4096 content)
    simp only [closeSeq] at h ⊢
    simp [relayTrace, os_pipe, List.filterMap_append, List.filterMap_cons,
      closePayload, h]

/-- C5 counterexample: for the symlink `link -> /etc/passwd` the catalog
line does not carry the size field "N/A" (it carries "11", the byte length
of the target), so the claim's conjunction fails. -/
theorem c5_counterexample :
    ¬((write_catalog (FSEntry.symlink "link" ⟨0o777, 0, 0, 0⟩ "/etc/passwd"
          false true) none).checksum = zeroDigest ∧
      (write_catalog (FSEntry.symlink "link" ⟨0o777, 0, 0, 0⟩ "/etc/passwd"
          false true) none).sizeField = "N/A") := by
  decide

/-- C5 (amended): for every symlink entry the catalog line records the
all-zero placeholder digest together with the symlink's own byte size (the
length of its target path, its lstat `st_size`) — not "N/A", since
`write_catalog` prints "N/A" only when `S_ISDIR` holds of the lstat
mode. -/
theorem c5_symlink_catalog_line :
    ∀ (env : SysEnv) (rel : List String) (n : String) (m : StatMeta)
      (t : String) (tid tif : Bool),
      (processEntry env rel (FSEntry.symlink n m t tid tif)).1 =
        [Event.line (rel ++ [n]) (write_catalog (FSEntry.symlink n m t tid tif) none),
         Event.member (rel ++ [n]) (tar_add env (renderRel (rel ++ [n]))
           (FSEntry.symlink n m t tid tif))] ∧
      (write_catalog (FSEntry.symlink n m t tid tif) none).checksum = zeroDigest ∧
      (write_catalog (FSEntry.symlink n m t tid tif) none).sizeField =
        toString t.utf8ByteSize := by
  intro env rel n m t tid tif
  refine ⟨rfl, ?_, ?_⟩ <;> rw [write_catalog_symlink]

/-- C6: the work queue is FIFO and the traversal deterministic
breadth-first: the catalog data lines and archive members of a whole run
appear exactly in entry-visit order (directory dequeue order, then listing
order within each directory); a directory is enqueued only in the dispatch
step that has just emitted, in order, its own catalog line and archive
member; and (for a tree with distinct sibling names, as on a real
filesystem) no directory is ever dequeued twice. -/
theorem c6_fifo_breadth_first :
    ∀ (env : SysEnv) (root : List FSEntry),
      (dataEvents (programTrace env root) =
        (visitOrder env [([], root)]).flatMap
          (fun pe => dataEvents (processEntry env pe.1 pe.2).1)) ∧
      (wfForest root = true → (dequeueOrder env [([], root)]).Nodup) ∧
      (∀ (rel : List String) (e : FSEntry), ∀ x ∈ (processEntry env rel e).2,
        x.1 = rel ++ [e.name] ∧
        (processEntry env rel e).1 =
          [Event.line x.1 (write_catalog e none),
           Event.member x.1 (tar_add env (renderRel x.1) e)]) := by
  intro env root
  refine ⟨?_, ?_, ?_⟩
  · exact walk_dataEvents env (queueWeight [([], root)]) _ (Nat.le_refl _)
  · intro hwf
    have hperm := dequeue_perm env (queueWeight [([], root)]) _ (Nat.le_refl _)
    have hflat : (([(([] : List String), root)].map PathsOf)).flatten =
        ([] : List String) :: dirPaths root := by
      simp [PathsOf]
    rw [hflat] at hperm
    have h2 : (([] : List String) :: dirPaths root).Nodup := by
      refine List.nodup_cons.mpr ⟨?_, ?_⟩
      · intro hbad
        exact dirPaths_ne_nil root [] hbad rfl
      · rw [wfForest, Bool.and_eq_true] at hwf
        exact dirPaths_nodup (forestWeight root) root (Nat.le_refl _) hwf.1 hwf.2
    exact hperm.nodup_iff.mpr h2
  · exact fun rel e => enqueue_only_after_emit env rel e

/-- C6 witness: a concrete two-directory tree has duplicate-free dequeue
order, and the enqueued subdirectory's path extends its parent's by its
name. -/
theorem c6_witness :
    (dequeueOrder envW [([], [FSEntry.dir "a" ⟨0o755, 0, 0, 0⟩ [],
        FSEntry.dir "b" ⟨0o755, 0, 0, 0⟩ []])]).Nodup ∧
    ((["x", "a"], ([] : List FSEntry)).1 = ["x"] ++ ["a"]) := by
  constructor
  · apply (c6_fifo_breadth_first envW _).2.1
    simp [wfForest, distinctNames, wfAll, FSEntry.name]
  · exact ((c6_fifo_breadth_first envW []).2.2 ["x"]
      (FSEntry.dir "a" ⟨0o755, 0, 0, 0⟩ []) (["x", "a"], [])
      (by rw [processEntry_dir]; exact List.mem_cons_self _ _)).1

/-- C7 (code-bug evidence): the claimed per-entry one-line/one-member
balance fails on the program.  Archiving a single 2-byte regular file
whose owner uid/gid resolves to no passwd/group entry produces a run whose
trace holds one catalog data line but zero archive members: the tar thread
loses the member to the `AttributeError` that `create_pax_header` raises
on a `None` uname/gname, while the main thread still writes the catalog
line.  Every entry still yields exactly one catalog data line. -/
theorem c7_count_mismatch_on_unknown_uid :
    countLines (programTrace envW
        [FSEntry.file "f" ⟨0o644, 0, 0, 0⟩ [104, 105]]) = 1 ∧
    countMembers (programTrace envW
        [FSEntry.file "f" ⟨0o644, 0, 0, 0⟩ [104, 105]]) = 0 ∧
    (∀ (env : SysEnv) (rel : List String) (e : FSEntry),
      countLines (processEntry env rel e).1 =
        (if classify e = EntryKind.otherKind then 0 else 1)) := by
  refine ⟨?_, ?_, fun env rel e => processEntry_countLines env rel e⟩ <;>
  · rw [programTrace, walkQueue_cons]
    simp [write_to_archive, build_tar_info, envW, countLines, countMembers,
      isLine, isMember, walkQueue_nil, List.filter]

/-- C8: an entry classified Other produces exactly one skip notice, no
catalog line, no archive member, enqueues nothing, and the run continues
(processing it is total and error-free). -/
theorem c8_other_entries_skipped :
    ∀ (env : SysEnv) (rel : List String) (e : FSEntry),
      classify e = EntryKind.otherKind →
        (processEntry env rel e).1 = [Event.skip (renderAbs env (rel ++ [e.name]))] ∧
        (processEntry env rel e).2 = [] ∧
        countLines (processEntry env rel e).1 = 0 ∧
        countMembers (processEntry env rel e).1 = 0 := by
  intro env rel e hcl
  cases e with
  | other n m tb => exact ⟨rfl, rfl, rfl, rfl⟩
  | file n m c =>
    exact absurd hcl (by simp [classify, FSEntry.is_symlink, FSEntry.is_dir,
      FSEntry.is_file])
  | dir n m cs =>
    exact absurd hcl (by simp [classify, FSEntry.is_symlink, FSEntry.is_dir,
      FSEntry.is_file])
  | symlink n m t tid tif =>
    exact absurd hcl (by simp [classify, FSEntry.is_symlink, FSEntry.is_dir,
      FSEntry.is_file])

/-- C8 witness: a FIFO entry yields exactly one skip notice and nothing
else. -/
theorem c8_witness :
    (processEntry envW [] (FSEntry.other "pipe0" ⟨0o644, 0, 0, 0⟩ 0o010000)).1 =
      [Event.skip "/src/pipe0"] ∧
    (processEntry envW [] (FSEntry.other "pipe0" ⟨0o644, 0, 0, 0⟩ 0o010000)).2 =
      [] := by
  have h := c8_other_entries_skipped envW []
    (FSEntry.other "pipe0" ⟨0o644, 0, 0, 0⟩ 0o010000) rfl
  exact ⟨h.1, h.2.1⟩

/-- C9: the archive root itself is only ever a catalog header: the trace
starts with the root's header line, and every catalog data line and
archive member belongs to an entry strictly below the root (nonempty
relative path). -/
theorem c9_root_only_header :
    ∀ (env : SysEnv) (root : List FSEntry),
      (∃ t, programTrace env root = Event.header env.rootPath :: t) ∧
      (∀ (rel : List String) (l : CatalogDataLine),
        Event.line rel l ∈ programTrace env root → rel ≠ []) ∧
      (∀ (rel : List String) (m : ArchiveMember),
        Event.member rel m ∈ programTrace env root → rel ≠ []) := by
  intro env root
  refine ⟨?_, ?_, ?_⟩
  · rw [programTrace, walkQueue_cons]
    exact ⟨_, rfl⟩
  · intro rel l hmem
    exact walk_evRel env (queueWeight [([], root)]) _ (Nat.le_refl _) _ hmem rel rfl
  · intro rel m hmem
    exact walk_evRel env (queueWeight [([], root)]) _ (Nat.le_refl _) _ hmem rel rfl

/-- C9 witness: in a concrete run the data line of subdirectory `a` carries
the nonempty relative path `["a"]`. -/
theorem c9_witness : (["a"] : List String) ≠ [] :=
  (c9_root_only_header envW [FSEntry.dir "a" ⟨0o755, 0, 0, 0⟩ []]).2.1 ["a"]
    (write_catalog (FSEntry.dir "a" ⟨0o755, 0, 0, 0⟩ []) none) (by
      rw [programTrace, walkQueue_cons]
      simp)

/-- C10 (code-bug evidence): the `KeyError` from `pwd.getpwuid` /
`grp.getgrgid` is indeed recovered by setting `uname`/`gname` to `None` in
the `TarInfo` (the evident intent being to archive the member anyway), but
under `PAX_FORMAT` the subsequent `tar_obj.addfile` raises
`AttributeError` on the `None` name inside `create_pax_header`, so the
member is NOT added: with a passwd/group database that resolves nothing,
`write_to_archive` errors for every file, and the file's dispatch step
emits only the catalog line, no member event. -/
theorem c10_pax_uname_none_drops_member :
    (∀ (item_rel : String) (st : LStatResult) (stream : List Nat),
      (build_tar_info envW item_rel st stream).uname = none ∧
      (build_tar_info envW item_rel st stream).gname = none ∧
      write_to_archive envW item_rel st stream =
        Except.error TarWriteError.attributeNoneEncode) ∧
    (processEntry envW [] (FSEntry.file "f" ⟨0o644, 0, 0, 0⟩ [104, 105])).1 =
      [Event.line ["f"] (write_catalog (FSEntry.file "f" ⟨0o644, 0, 0, 0⟩ [104, 105])
        (some (fileDigest [104, 105])))] := by
  exact ⟨fun item_rel st stream => ⟨rfl, rfl, rfl⟩, rfl⟩

end CreatePax
